import Mathlib

/-!
# Verification of mako's dependency analysis (`analyze_deps.rs`, `thread_pool.rs`)

Shallow embedding of the dependency-discovery engine: the `DepCollectVisitor`
state machine, the script visitor over the ecma AST fragment it inspects, the
stylesheet visitor over the css AST fragment it inspects, and the entry
dispatcher `analyze_deps`.  A panic in the Rust code (the `unwrap()` in
`visit_url`) is embedded as `Option.none`.
-/

namespace Mako

/-- Modelled from the spec: `ResolveType`, the closed enum from `crate::module`
(declared outside the analyzed files); the spec lists the variants
{Import, ExportNamed, ExportAll, Require, DynamicImport, Css}. -/
inductive ResolveType where
  | Import
  | ExportNamed
  | ExportAll
  | Require
  | DynamicImport
  | Css
  deriving DecidableEq, Repr

/-- Modelled from the spec: `Dependency` from `crate::module`:
`{source: text, order: 1-based first-occurrence rank, resolve_type}`. -/
structure Dependency where
  source : String
  order : Nat
  resolve_type : ResolveType
  deriving DecidableEq, Repr

/-! ## The ecma AST fragment inspected by the script visitor

These types mirror the `swc_ecma_ast` shapes the visitor pattern-matches on:
call expressions (`CallExpr { callee, args }`, `Callee::Import` vs
`Callee::Expr`), identifiers, string literals, and enough expression/statement
structure (function bodies, binary expressions, expression statements) to
express nesting, which the default child traversal descends into. -/

mutual

inductive Expr where
  /-- An identifier, `Expr::Ident`, with symbol `sym`. -/
  | ident (sym : String) : Expr
  /-- A string literal, `Expr::Lit(Lit::Str)`, with its text value. -/
  | strLit (value : String) : Expr
  /-- Any other literal (number, bool, ...): no children. -/
  | otherLit : Expr
  /-- A call expression, `Expr::Call`. -/
  | call (c : CallExpr) : Expr
  /-- A function expression; its child of interest is the body. -/
  | fn (body : List Stmt) : Expr
  /-- A binary expression: representative two-child expression node. -/
  | bin (lhs rhs : Expr) : Expr

inductive Callee where
  /-- The dynamic-import operator, `Callee::Import(Import \x7b .. \x7d)`. -/
  | importCallee : Callee
  /-- An expression callee, `Callee::Expr(e)`. -/
  | expr (e : Expr) : Callee

inductive CallExpr where
  /-- The struct `CallExpr`, with `callee` and `args`; an argument is modelled directly as an
  expression, since the visitor only ever reads `arg.expr`. -/
  | mk (callee : Callee) (args : List Expr) : CallExpr

inductive Stmt where
  /-- An expression statement. -/
  | exprStmt (e : Expr) : Stmt
  /-- A statement with no expression children. -/
  | empty : Stmt

end

/-- The callee of a `CallExpr`. -/
def CallExpr.callee : CallExpr → Callee
  | .mk callee _ => callee

/-- The argument expressions of a `CallExpr`. -/
def CallExpr.args : CallExpr → List Expr
  | .mk _ args => args

/-- Mirrors `swc_ecma_ast::ModuleDecl`, restricted to the arms the visitor matches on;
`exportDecl` stands for the `_` arms (e.g. `export function f() {...}`) whose
children the visitor still descends into. -/
inductive ModuleDecl where
  /-- An import declaration, `ModuleDecl::Import`, with its `type_only` flag and `src.value`. -/
  | importDecl (type_only : Bool) (src : String) : ModuleDecl
  /-- A named re-export, `ModuleDecl::ExportNamed`, with its optional `src`. -/
  | exportNamed (src : Option String) : ModuleDecl
  /-- A star re-export, `ModuleDecl::ExportAll`, with its `src.value`. -/
  | exportAll (src : String) : ModuleDecl
  /-- The `_` arms: an export carrying a declaration with a body. -/
  | exportDecl (body : List Stmt) : ModuleDecl

/-- Mirrors `swc_ecma_ast::ModuleItem`: a module declaration or a plain statement. -/
inductive ModuleItem where
  | moduleDecl (d : ModuleDecl) : ModuleItem
  | stmt (s : Stmt) : ModuleItem

/-- Mirrors `swc_ecma_ast::Module`: its body, the list of module items. -/
structure Module where
  body : List ModuleItem

/-! ## The css AST fragment inspected by the stylesheet visitor -/

/-- Mirrors `swc_css_ast::UrlValue`: a quoted string or an unquoted raw token. -/
inductive UrlValue where
  | str (value : String) : UrlValue
  | raw (value : String) : UrlValue
  deriving DecidableEq, Repr

/-- Mirrors `swc_css_ast::Url`: a `url()` node; its `value` is `Option<Box<UrlValue>>`. -/
structure Url where
  value : Option UrlValue
  deriving DecidableEq, Repr

/-- Mirrors `swc_css_ast::ImportHref`: the target of an `@import` rule. -/
inductive ImportHref where
  | url (u : Url) : ImportHref
  | str (value : String) : ImportHref
  deriving DecidableEq, Repr

/-- A stylesheet rule, restricted to the places the visitor's overridden
methods fire: an `@import` rule (its prelude holds an `ImportHref`), or a
style rule whose declaration values contain the listed `url()` nodes. -/
inductive Rule where
  | importRule (href : ImportHref) : Rule
  | styleRule (urls : List Url) : Rule
  deriving DecidableEq, Repr

/-- Mirrors `swc_css_ast::Stylesheet`: its rules. -/
structure Stylesheet where
  rules : List Rule
  deriving DecidableEq, Repr

/-- Modelled from the spec: `ModuleAst` from `crate::module`, the tagged
variant over {script tree, stylesheet tree, other/opaque} dispatched on by
`analyze_deps`. -/
inductive ModuleAst where
  | script (m : Module) : ModuleAst
  | css (s : Stylesheet) : ModuleAst
  | other : ModuleAst

/-! ## The collector -/

/-- The per-analysis collector state, `DepCollectVisitor`. -/
structure DepCollectVisitor where
  dependencies : List Dependency
  dep_strs : List String
  order : Nat
  deriving Repr

/-- Embeds `DepCollectVisitor::new()`: empty lists, order starts with 1
(0 is reserved for swc helpers). -/
def DepCollectVisitor.new : DepCollectVisitor :=
  { dependencies := [], dep_strs := [], order := 1 }

/-- Embeds `DepCollectVisitor::bind_dependency`: if the source was not seen, push it
onto `dep_strs` and append a `Dependency` carrying the current `order`, then
increment `order`; otherwise leave the state unchanged. -/
def bind_dependency (v : DepCollectVisitor) (source : String)
    (resolve_type : ResolveType) : DepCollectVisitor :=
  if source ∈ v.dep_strs then v
  else
    { dependencies :=
        v.dependencies ++ [{ source := source, order := v.order, resolve_type := resolve_type }]
      dep_strs := v.dep_strs ++ [source]
      order := v.order + 1 }

/-! ## Script visitor helpers -/

/-- Embeds `is_dynamic_import`: the callee is `Callee::Import`. -/
def is_dynamic_import (call_expr : CallExpr) : Bool :=
  match call_expr.callee with
  | .importCallee => true
  | .expr _ => false

/-- Embeds `is_commonjs_require`: the callee is an identifier expression whose symbol
is exactly `require`. -/
def is_commonjs_require (call_expr : CallExpr) : Bool :=
  match call_expr.callee with
  | .expr (.ident sym) => sym == "require"
  | _ => false

/-- Embeds `get_first_arg_str`: the text of the first argument when it is a string
literal, `none` otherwise; later arguments are never inspected. -/
def get_first_arg_str (call_expr : CallExpr) : Option String :=
  match call_expr.args with
  | .strLit s :: _ => some s
  | _ => none

/-! ## Script visitor traversal

The `Visit` impl overrides `visit_module_decl` and `visit_call_expr`; all
other nodes get the default behaviour, which visits the children.  The mutual
functions below thread the collector through that traversal. -/

mutual

/-- Default child traversal of an expression; a nested call expression is
dispatched to the overridden `visit_call_expr`. -/
def visitExpr (v : DepCollectVisitor) : Expr → DepCollectVisitor
  | .ident _ => v
  | .strLit _ => v
  | .otherLit => v
  | .call c => visit_call_expr v c
  | .fn body => visitStmtList v body
  | .bin lhs rhs => visitExpr (visitExpr v lhs) rhs

/-- The overridden `visit_call_expr`: a commonjs-require match with a string
first argument binds a `Require` dependency and returns (no descent); a
dynamic-import match with a string first argument binds a `DynamicImport`
dependency and returns; every other call expression has its children
(callee, then arguments) visited. -/
def visit_call_expr (v : DepCollectVisitor) : CallExpr → DepCollectVisitor
  | .mk callee args =>
    if is_commonjs_require (.mk callee args) then
      match get_first_arg_str (.mk callee args) with
      | some src => bind_dependency v src .Require
      | none => visitExprList (visitCallee v callee) args
    else if is_dynamic_import (.mk callee args) then
      match get_first_arg_str (.mk callee args) with
      | some src => bind_dependency v src .DynamicImport
      | none => visitExprList (visitCallee v callee) args
    else
      visitExprList (visitCallee v callee) args

/-- Child traversal of a callee: `Callee::Import` has no children of
interest, `Callee::Expr` holds an expression. -/
def visitCallee (v : DepCollectVisitor) : Callee → DepCollectVisitor
  | .importCallee => v
  | .expr e => visitExpr v e

/-- Sequential traversal of a list of expressions. -/
def visitExprList (v : DepCollectVisitor) : List Expr → DepCollectVisitor
  | [] => v
  | e :: es => visitExprList (visitExpr v e) es

/-- Default child traversal of a statement. -/
def visitStmt (v : DepCollectVisitor) : Stmt → DepCollectVisitor
  | .exprStmt e => visitExpr v e
  | .empty => v

/-- Sequential traversal of a list of statements. -/
def visitStmtList (v : DepCollectVisitor) : List Stmt → DepCollectVisitor
  | [] => v
  | s :: ss => visitStmtList (visitStmt v s) ss

end

/-- Child traversal of a module declaration (`n.visit_children_with(self)`):
the children of import/export-from declarations are specifiers and string
literals, which the visitor treats as leaves; the `_` arms carry a body that
is descended into (e.g. a `require` inside an exported function). -/
def moduleDeclChildren (v : DepCollectVisitor) : ModuleDecl → DepCollectVisitor
  | .importDecl _ _ => v
  | .exportNamed _ => v
  | .exportAll _ => v
  | .exportDecl body => visitStmtList v body

/-- The overridden `visit_module_decl`: a type-only import returns early
(children not visited); otherwise the matching arm binds its dependency and
then the children are visited. -/
def visit_module_decl (v : DepCollectVisitor) (n : ModuleDecl) : DepCollectVisitor :=
  match n with
  | .importDecl type_only src =>
    if type_only then v
    else moduleDeclChildren (bind_dependency v src .Import) n
  | .exportNamed (some src) => moduleDeclChildren (bind_dependency v src .ExportNamed) n
  | .exportNamed none => moduleDeclChildren v n
  | .exportAll src => moduleDeclChildren (bind_dependency v src .ExportAll) n
  | .exportDecl _ => moduleDeclChildren v n

/-- Traversal of one module item. -/
def visitModuleItem (v : DepCollectVisitor) : ModuleItem → DepCollectVisitor
  | .moduleDecl d => visit_module_decl v d
  | .stmt s => visitStmt v s

/-- Sequential traversal of the module body. -/
def visitModuleItemList (v : DepCollectVisitor) : List ModuleItem → DepCollectVisitor
  | [] => v
  | i :: is_ => visitModuleItemList (visitModuleItem v i) is_

/-- Embeds `analyze_deps_js`: run a fresh visitor over the module, return its
dependency list. -/
def analyze_deps_js (ast : Module) : List Dependency :=
  (visitModuleItemList DepCollectVisitor.new ast.body).dependencies

/-! ## Stylesheet visitor traversal

The `swc_css_visit::Visit` impl overrides `visit_import_href` and
`visit_url`, and neither visits its children (the calls are commented out in
the source).  `visit_url` calls `.unwrap()` on the mapped value, so a `url()`
node with no value panics: the embedding returns `Option.none` there and
propagates it, so `analyze_deps_css` is `Option`-valued. -/

/-- The text of a `UrlValue`: the match inside both overridden methods
(`UrlValue::Str(str) => str.value`, `UrlValue::Raw(raw) => raw.value`). -/
def urlValueText : UrlValue → String
  | .str s => s
  | .raw s => s

/-- The overridden `visit_import_href`: a URL target binds a `Css` dependency
when it carries a value (`Option::map`, then `if let Some`), and is skipped
otherwise; a string target always binds a `Css` dependency.  No children are
visited, and nothing fails. -/
def visit_import_href (v : DepCollectVisitor) : ImportHref → DepCollectVisitor
  | .url u =>
    match u.value.map urlValueText with
    | some src => bind_dependency v src .Css
    | none => v
  | .str src => bind_dependency v src .Css

/-- The overridden `visit_url`: maps the value to its text and `unwrap()`s,
so a valueless `url()` node panics (`none`); otherwise binds a `Css`
dependency. -/
def visit_url (v : DepCollectVisitor) (n : Url) : Option DepCollectVisitor :=
  match n.value.map urlValueText with
  | some href_string => some (bind_dependency v href_string .Css)
  | none => none

/-- Traversal of the `url()` nodes inside one style rule; a panic aborts the
whole traversal. -/
def visitUrlList (v : DepCollectVisitor) : List Url → Option DepCollectVisitor
  | [] => some v
  | u :: us => (visit_url v u).bind (fun w => visitUrlList w us)

/-- Traversal of one rule: an `@import` prelude goes to `visit_import_href`
(total); the `url()` nodes in a style rule go to `visit_url` (may panic). -/
def visitRule (v : DepCollectVisitor) : Rule → Option DepCollectVisitor
  | .importRule href => some (visit_import_href v href)
  | .styleRule urls => visitUrlList v urls

/-- Sequential traversal of the stylesheet rules. -/
def visitRuleList (v : DepCollectVisitor) : List Rule → Option DepCollectVisitor
  | [] => some v
  | r :: rs => (visitRule v r).bind (fun w => visitRuleList w rs)

/-- Embeds `analyze_deps_css`: run a fresh visitor over the stylesheet; `none` models
the panic from `visit_url`'s `unwrap()`. -/
def analyze_deps_css (ast : Stylesheet) : Option (List Dependency) :=
  (visitRuleList DepCollectVisitor.new ast.rules).map (·.dependencies)

/-- Embeds `analyze_deps`, the entry dispatcher.  Script and other/opaque inputs
never fail; a stylesheet analysis may fail (panic embedded as `none`). -/
def analyze_deps (ast : ModuleAst) : Option (List Dependency) :=
  match ast with
  | .script m => some (analyze_deps_js m)
  | .css s => analyze_deps_css s
  | .other => some []

/-! ## The task scheduler (`thread_pool.rs`)

`spawn` hands an analysis task to a shared rayon pool.  Each task owns its
module's tree and a fresh collector, shares no mutable state with the other
tasks, and writes only its own result slot.  An execution of `n` independent
analysis tasks is modelled by the completion order of the workers: a list of
task indices, each completion writing `analyze_deps` of its own module into
its own slot.  Any interleaving is any completion order covering the tasks. -/

/-- Write `x` at position `i` of the slot list, leaving other slots alone. -/
def writeSlot {α : Type} (slots : List (Option α)) (i : Nat) (x : α) :
    List (Option α) :=
  slots.set i (some x)

/-- Completion of one spawned task `i`: it computes `analyze_deps` of module
`i` (reading only that module) and stores the result in slot `i`. -/
def poolStep (modules : List ModuleAst)
    (slots : List (Option (Option (List Dependency)))) (i : Nat) :
    List (Option (Option (List Dependency))) :=
  match modules[i]? with
  | some m => writeSlot slots i (analyze_deps m)
  | none => slots

/-- Run a pool execution: `completionOrder` is the order in which workers
finish the spawned tasks. -/
def runPool (modules : List ModuleAst) (completionOrder : List Nat) :
    List (Option (Option (List Dependency))) :=
  completionOrder.foldl (poolStep modules) (List.replicate modules.length none)

/-- Sequential analysis: every module analyzed in order, one after another. -/
def runSequential (modules : List ModuleAst) :
    List (Option (Option (List Dependency))) :=
  modules.map (fun m => some (analyze_deps m))

/-! ## Collector reachability

Every traversal function touches the collector only through
`bind_dependency`.  `Reach a b` says that `b` arises from `a` by some
sequence of `bind_dependency` calls; all collector invariants are preserved
along it. -/

/-- One `bind_dependency` call. -/
def Step (a b : DepCollectVisitor) : Prop :=
  ∃ s rt, b = bind_dependency a s rt

/-- Finitely many `bind_dependency` calls. -/
def Reach : DepCollectVisitor → DepCollectVisitor → Prop :=
  Relation.ReflTransGen Step

theorem Reach.rfl {a : DepCollectVisitor} : Reach a a :=
  Relation.ReflTransGen.refl

theorem Reach.trans {a b c : DepCollectVisitor} (h1 : Reach a b) (h2 : Reach b c) :
    Reach a c :=
  Relation.ReflTransGen.trans h1 h2

theorem reach_bind (v : DepCollectVisitor) (s : String) (rt : ResolveType) :
    Reach v (bind_dependency v s rt) :=
  Relation.ReflTransGen.single ⟨s, rt, Eq.refl _⟩

mutual

theorem reach_visitExpr (v : DepCollectVisitor) (e : Expr) :
    Reach v (visitExpr v e) := by
  match e with
  | .ident _ => simp only [visitExpr]; exact Reach.rfl
  | .strLit _ => simp only [visitExpr]; exact Reach.rfl
  | .otherLit => simp only [visitExpr]; exact Reach.rfl
  | .call c => simp only [visitExpr]; exact reach_visit_call_expr v c
  | .fn body => simp only [visitExpr]; exact reach_visitStmtList v body
  | .bin lhs rhs =>
    simp only [visitExpr]
    exact Reach.trans (reach_visitExpr v lhs) (reach_visitExpr (visitExpr v lhs) rhs)

theorem reach_visit_call_expr (v : DepCollectVisitor) (c : CallExpr) :
    Reach v (visit_call_expr v c) := by
  match c with
  | .mk callee args =>
    simp only [visit_call_expr]
    split
    · split
      · exact reach_bind v _ .Require
      · exact Reach.trans (reach_visitCallee v callee)
          (reach_visitExprList (visitCallee v callee) args)
    · split
      · split
        · exact reach_bind v _ .DynamicImport
        · exact Reach.trans (reach_visitCallee v callee)
            (reach_visitExprList (visitCallee v callee) args)
      · exact Reach.trans (reach_visitCallee v callee)
          (reach_visitExprList (visitCallee v callee) args)

theorem reach_visitCallee (v : DepCollectVisitor) (c : Callee) :
    Reach v (visitCallee v c) := by
  match c with
  | .importCallee => simp only [visitCallee]; exact Reach.rfl
  | .expr e => simp only [visitCallee]; exact reach_visitExpr v e

theorem reach_visitExprList (v : DepCollectVisitor) (es : List Expr) :
    Reach v (visitExprList v es) := by
  match es with
  | [] => simp only [visitExprList]; exact Reach.rfl
  | e :: es =>
    simp only [visitExprList]
    exact Reach.trans (reach_visitExpr v e) (reach_visitExprList (visitExpr v e) es)

theorem reach_visitStmt (v : DepCollectVisitor) (s : Stmt) :
    Reach v (visitStmt v s) := by
  match s with
  | .exprStmt e => simp only [visitStmt]; exact reach_visitExpr v e
  | .empty => simp only [visitStmt]; exact Reach.rfl

theorem reach_visitStmtList (v : DepCollectVisitor) (ss : List Stmt) :
    Reach v (visitStmtList v ss) := by
  match ss with
  | [] => simp only [visitStmtList]; exact Reach.rfl
  | s :: ss =>
    simp only [visitStmtList]
    exact Reach.trans (reach_visitStmt v s) (reach_visitStmtList (visitStmt v s) ss)

end

theorem reach_moduleDeclChildren (v : DepCollectVisitor) (d : ModuleDecl) :
    Reach v (moduleDeclChildren v d) := by
  cases d with
  | importDecl _ _ => exact Reach.rfl
  | exportNamed _ => exact Reach.rfl
  | exportAll _ => exact Reach.rfl
  | exportDecl body => exact reach_visitStmtList v body

theorem reach_visit_module_decl (v : DepCollectVisitor) (d : ModuleDecl) :
    Reach v (visit_module_decl v d) := by
  cases d with
  | importDecl type_only src =>
    cases type_only with
    | false =>
      simp only [visit_module_decl, Bool.false_eq_true, if_false]
      exact Reach.trans (reach_bind v src .Import)
        (reach_moduleDeclChildren _ _)
    | true =>
      simp only [visit_module_decl, if_true]
      exact Reach.rfl
  | exportNamed src =>
    cases src with
    | none => simp only [visit_module_decl]; exact reach_moduleDeclChildren v _
    | some s =>
      simp only [visit_module_decl]
      exact Reach.trans (reach_bind v s .ExportNamed) (reach_moduleDeclChildren _ _)
  | exportAll src =>
    simp only [visit_module_decl]
    exact Reach.trans (reach_bind v src .ExportAll) (reach_moduleDeclChildren _ _)
  | exportDecl body =>
    simp only [visit_module_decl]
    exact reach_moduleDeclChildren v _

theorem reach_visitModuleItem (v : DepCollectVisitor) (i : ModuleItem) :
    Reach v (visitModuleItem v i) := by
  cases i with
  | moduleDecl d => exact reach_visit_module_decl v d
  | stmt s => exact reach_visitStmt v s

theorem reach_visitModuleItemList (v : DepCollectVisitor) (items : List ModuleItem) :
    Reach v (visitModuleItemList v items) := by
  induction items generalizing v with
  | nil => exact Reach.rfl
  | cons i items ih =>
    exact Reach.trans (reach_visitModuleItem v i) (ih (visitModuleItem v i))

theorem reach_visit_url (v w : DepCollectVisitor) (u : Url)
    (h : visit_url v u = some w) : Reach v w := by
  cases hv : u.value with
  | none => simp [visit_url, hv] at h
  | some uv =>
    simp [visit_url, hv] at h
    subst h
    exact reach_bind v (urlValueText uv) .Css

theorem reach_visitUrlList (v w : DepCollectVisitor) (us : List Url)
    (h : visitUrlList v us = some w) : Reach v w := by
  induction us generalizing v with
  | nil =>
    simp [visitUrlList] at h
    subst h
    exact Reach.rfl
  | cons u us ih =>
    simp only [visitUrlList] at h
    cases hu : visit_url v u with
    | none => rw [hu] at h; simp at h
    | some v₂ =>
      rw [hu] at h
      simp only [Option.some_bind] at h
      exact Reach.trans (reach_visit_url v v₂ u hu) (ih v₂ h)

theorem reach_visit_import_href (v : DepCollectVisitor) (href : ImportHref) :
    Reach v (visit_import_href v href) := by
  cases href with
  | url u =>
    simp only [visit_import_href]
    cases u.value with
    | none => exact Reach.rfl
    | some uv => exact reach_bind v _ .Css
  | str s => exact reach_bind v s .Css

theorem reach_visitRule (v w : DepCollectVisitor) (r : Rule)
    (h : visitRule v r = some w) : Reach v w := by
  cases r with
  | importRule href =>
    simp only [visitRule, Option.some_inj] at h
    exact h ▸ reach_visit_import_href v href
  | styleRule urls =>
    exact reach_visitUrlList v w urls h

theorem reach_visitRuleList (v w : DepCollectVisitor) (rs : List Rule)
    (h : visitRuleList v rs = some w) : Reach v w := by
  induction rs generalizing v with
  | nil => simp [visitRuleList] at h; exact h ▸ Reach.rfl
  | cons r rs ih =>
    simp only [visitRuleList] at h
    cases hr : visitRule v r with
    | none => rw [hr] at h; simp at h
    | some v₂ =>
      rw [hr] at h
      simp only [Option.some_bind] at h
      exact Reach.trans (reach_visitRule v v₂ r hr) (ih v₂ h)

/-! ## The collector invariant

The seen-set mirrors the sources of the accumulated dependencies, holds no
duplicate, and the `order` fields are the 1-based positions. -/

/-- Collector invariant maintained by every `bind_dependency` call. -/
def Inv (v : DepCollectVisitor) : Prop :=
  v.order = v.dependencies.length + 1 ∧
  v.dep_strs = v.dependencies.map Dependency.source ∧
  v.dep_strs.Nodup ∧
  ∀ i (h : i < v.dependencies.length), (v.dependencies[i]).order = i + 1

theorem inv_new : Inv DepCollectVisitor.new := by
  refine ⟨rfl, rfl, List.nodup_nil, ?_⟩
  intro i h
  simp [DepCollectVisitor.new] at h

theorem inv_bind (v : DepCollectVisitor) (s : String) (rt : ResolveType)
    (h : Inv v) : Inv (bind_dependency v s rt) := by
  obtain ⟨ho, hs, hn, hg⟩ := h
  unfold bind_dependency
  split
  · exact ⟨ho, hs, hn, hg⟩
  · rename_i hmem
    refine ⟨?_, ?_, ?_, ?_⟩
    · simp [ho]
    · simp [hs]
    · simp [List.nodup_append, hn, hmem]
    · intro i hl
      simp only [List.length_append, List.length_cons, List.length_nil] at hl
      rcases Nat.lt_or_ge i v.dependencies.length with hlt | hge
      · rw [List.getElem_append_left hlt]
        exact hg i hlt
      · have hi : i = v.dependencies.length := by omega
        subst hi
        rw [List.getElem_concat_length]
        exact ho
        rfl

theorem inv_step (a b : DepCollectVisitor) (h : Step a b) (ha : Inv a) : Inv b := by
  obtain ⟨s, rt, rfl⟩ := h
  exact inv_bind a s rt ha

theorem inv_reach {a b : DepCollectVisitor} (h : Reach a b) (ha : Inv a) :
    Inv b := by
  induction h with
  | refl => exact ha
  | tail _ hstep ih => exact inv_step _ _ hstep ih

/-- Every successful analysis result is the dependency list of a collector
state satisfying the invariant, reached from the fresh state. -/
theorem analyze_inv (ast : ModuleAst) (deps : List Dependency)
    (h : analyze_deps ast = some deps) :
    ∃ v : DepCollectVisitor, v.dependencies = deps ∧ Inv v := by
  cases ast with
  | script m =>
    simp only [analyze_deps, Option.some_inj] at h
    refine ⟨visitModuleItemList DepCollectVisitor.new m.body, h, ?_⟩
    exact inv_reach (reach_visitModuleItemList DepCollectVisitor.new m.body) inv_new
  | css s =>
    simp only [analyze_deps, analyze_deps_css] at h
    obtain ⟨w, hw, hdeps⟩ := Option.map_eq_some'.mp h
    refine ⟨w, hdeps, ?_⟩
    exact inv_reach (reach_visitRuleList DepCollectVisitor.new w s.rules hw) inv_new
  | other =>
    simp only [analyze_deps, Option.some_inj] at h
    exact ⟨DepCollectVisitor.new, h ▸ rfl, inv_new⟩

/-! ## Scheduler lemmas

Each completed task touches only its own slot, so the final slot contents do
not depend on the completion order. -/

theorem poolStep_length (modules : List ModuleAst)
    (slots : List (Option (Option (List Dependency)))) (i : Nat) :
    (poolStep modules slots i).length = slots.length := by
  unfold poolStep
  cases modules[i]? with
  | none => rfl
  | some m => simp [writeSlot]

theorem foldl_poolStep_length (modules : List ModuleAst) (order : List Nat)
    (slots : List (Option (Option (List Dependency)))) :
    (order.foldl (poolStep modules) slots).length = slots.length := by
  induction order generalizing slots with
  | nil => rfl
  | cons i rest ih => rw [List.foldl_cons, ih, poolStep_length]

theorem poolStep_getElem_ne (modules : List ModuleAst)
    (slots : List (Option (Option (List Dependency)))) (i j : Nat) (hij : i ≠ j) :
    (poolStep modules slots i)[j]? = slots[j]? := by
  unfold poolStep
  cases modules[i]? with
  | none => rfl
  | some m => simp [writeSlot, List.getElem?_set_ne hij]

theorem foldl_poolStep_getElem_notMem (modules : List ModuleAst)
    (order : List Nat) (slots : List (Option (Option (List Dependency))))
    (j : Nat) (hj : j ∉ order) :
    (order.foldl (poolStep modules) slots)[j]? = slots[j]? := by
  induction order generalizing slots with
  | nil => rfl
  | cons i rest ih =>
    rw [List.foldl_cons, ih _ (fun hmem => hj (List.mem_cons_of_mem i hmem))]
    exact poolStep_getElem_ne modules slots i j (fun hij => hj (hij ▸ List.mem_cons_self i rest))

theorem foldl_poolStep_getElem_mem (modules : List ModuleAst)
    (order : List Nat) (slots : List (Option (Option (List Dependency))))
    (j : Nat) (m : ModuleAst) (hlen : slots.length = modules.length)
    (hj : j ∈ order) (hm : modules[j]? = some m) :
    (order.foldl (poolStep modules) slots)[j]? = some (some (analyze_deps m)) := by
  induction order generalizing slots with
  | nil => exact absurd hj (List.not_mem_nil j)
  | cons i rest ih =>
    rw [List.foldl_cons]
    by_cases hrest : j ∈ rest
    · exact ih _ (by rw [poolStep_length, hlen]) hrest
    · have hij : i = j := by
        rcases List.mem_cons.mp hj with h | h
        · exact h.symm
        · exact absurd h hrest
      rw [hij, foldl_poolStep_getElem_notMem modules rest _ j hrest]
      unfold poolStep
      rw [hm]
      have hjlen : j < slots.length := by
        rw [hlen]
        exact (List.getElem?_eq_some_iff.mp hm).1
      simp [writeSlot, List.getElem?_set_self, hjlen]

/-! ## Helper lemmas for the claims -/

theorem visit_url_none (v : DepCollectVisitor) (u : Url) (hv : u.value = none) :
    visit_url v u = none := by
  simp [visit_url, hv]

theorem visitUrlList_none (v : DepCollectVisitor) (us : List Url) (u : Url)
    (hu : u ∈ us) (hv : u.value = none) : visitUrlList v us = none := by
  induction us generalizing v with
  | nil => cases hu
  | cons u₀ us ih =>
    simp only [visitUrlList]
    rcases List.mem_cons.mp hu with h | h
    · rw [← h, visit_url_none v u hv]
      rfl
    · cases h0 : visit_url v u₀ with
      | none => rfl
      | some w => simp only [Option.some_bind]; exact ih w h

theorem visitRuleList_styleRule_none (v : DepCollectVisitor) (rs : List Rule)
    (urls : List Url) (u : Url) (hr : Rule.styleRule urls ∈ rs) (hu : u ∈ urls)
    (hv : u.value = none) : visitRuleList v rs = none := by
  induction rs generalizing v with
  | nil => cases hr
  | cons r rs ih =>
    simp only [visitRuleList]
    rcases List.mem_cons.mp hr with h | h
    · rw [← h]
      simp only [visitRule, visitUrlList_none v urls u hu hv]
      rfl
    · cases h0 : visitRule v r with
      | none => rfl
      | some w => simp only [Option.some_bind]; exact ih w h

theorem is_commonjs_require_iff (c : CallExpr) :
    is_commonjs_require c = true ↔ c.callee = Callee.expr (Expr.ident "require") := by
  obtain ⟨callee, args⟩ := c
  cases callee with
  | importCallee => simp [is_commonjs_require, CallExpr.callee]
  | expr e => cases e <;> simp [is_commonjs_require, CallExpr.callee]

theorem get_first_arg_str_iff (c : CallExpr) (s : String) :
    get_first_arg_str c = some s ↔ ∃ rest, c.args = Expr.strLit s :: rest := by
  obtain ⟨callee, args⟩ := c
  cases args with
  | nil => simp [get_first_arg_str, CallExpr.args]
  | cons a rest => cases a <;> simp [get_first_arg_str, CallExpr.args]

/-! ## The claims -/

/-- Claim C1: for every module analysis, at most one `Dependency` is produced
per distinct source string — the result list is pairwise distinct in
`source`; a first occurrence is appended carrying its mechanism's
`resolve_type`, and recording the same source again, via any mechanism, is a
no-op, so recording twice equals recording once. -/
theorem claim_C1_dedup :
    (∀ (v : DepCollectVisitor) (s : String) (rt₁ rt₂ : ResolveType),
        bind_dependency (bind_dependency v s rt₁) s rt₂ = bind_dependency v s rt₁)
    ∧ (∀ (v : DepCollectVisitor) (s : String) (rt : ResolveType), s ∉ v.dep_strs →
        (bind_dependency v s rt).dependencies
          = v.dependencies ++ [{ source := s, order := v.order, resolve_type := rt }])
    ∧ (∀ (ast : ModuleAst) (deps : List Dependency), analyze_deps ast = some deps →
        deps.Pairwise (fun a b => a.source ≠ b.source)) := by
  refine ⟨?_, ?_, ?_⟩
  · intro v s rt₁ rt₂
    by_cases h : s ∈ v.dep_strs <;> simp [bind_dependency, h]
  · intro v s rt h
    simp [bind_dependency, h]
  · intro ast deps h
    obtain ⟨v, hdeps, _, hs, hn, _⟩ := analyze_inv ast deps h
    subst hdeps
    rw [hs] at hn
    exact List.pairwise_map.mp hn

/-- Witness for C1 at a concrete module: `import a; export * from a; import b`
yields pairwise-distinct sources. -/
theorem claim_C1_witness :
    ([{ source := "a", order := 1, resolve_type := ResolveType.Import },
      { source := "b", order := 2, resolve_type := ResolveType.Import }] :
        List Dependency).Pairwise (fun a b => a.source ≠ b.source) :=
  claim_C1_dedup.2.2
    (ModuleAst.script ⟨[.moduleDecl (.importDecl false "a"),
      .moduleDecl (.exportAll "a"), .moduleDecl (.importDecl false "b")]⟩)
    _ (by decide)

/-- Claim C2: the `order` fields of every returned dependency sequence are
exactly the 1-based list positions: the entry at index `i` has
`order = i + 1`, hence orders go 1, 2, 3, ... with no gaps. -/
theorem claim_C2_order (ast : ModuleAst) (deps : List Dependency)
    (h : analyze_deps ast = some deps) :
    ∀ i (hi : i < deps.length), (deps[i]).order = i + 1 := by
  obtain ⟨v, hdeps, hinv⟩ := analyze_inv ast deps h
  subst hdeps
  exact hinv.2.2.2

/-- Witness for C2 at a concrete module with two dependencies. -/
theorem claim_C2_witness :
    (([{ source := "a", order := 1, resolve_type := ResolveType.Import },
       { source := "b", order := 2, resolve_type := ResolveType.Import }] :
        List Dependency)[1]).order = 1 + 1 :=
  claim_C2_order
    (ModuleAst.script ⟨[.moduleDecl (.importDecl false "a"),
      .moduleDecl (.exportAll "a"), .moduleDecl (.importDecl false "b")]⟩)
    _ (by decide) 1 (by decide)

/-- Claim C3: a `url()` node outside an import rule whose value is absent
makes the whole stylesheet analysis fail (the embedded panic, `none`) — it is
never skipped and never fabricates a dependency. -/
theorem claim_C3_valueless_url_fails (s : Stylesheet) (urls : List Url)
    (u : Url) (hr : Rule.styleRule urls ∈ s.rules) (hu : u ∈ urls)
    (hv : u.value = none) : analyze_deps_css s = none := by
  unfold analyze_deps_css
  rw [visitRuleList_styleRule_none DepCollectVisitor.new s.rules urls u hr hu hv]
  rfl

/-- Witness for C3: one style rule holding one valueless `url()` node. -/
theorem claim_C3_witness :
    analyze_deps_css ⟨[.styleRule [⟨none⟩]]⟩ = none :=
  claim_C3_valueless_url_fails ⟨[.styleRule [⟨none⟩]]⟩ [⟨none⟩] ⟨none⟩
    (by decide) (by decide) rfl

/-- Claim C4: a call expression matches the require form exactly when its
callee is the bare identifier `require` and its first argument is a string
literal; a matching call is recorded as a `Require` dependency whose source
is that literal's text value. -/
theorem claim_C4_require_form (v : DepCollectVisitor) (c : CallExpr) (s : String) :
    ((is_commonjs_require c = true ∧ get_first_arg_str c = some s)
      ↔ (c.callee = Callee.expr (Expr.ident "require")
          ∧ ∃ rest, c.args = Expr.strLit s :: rest))
    ∧ (is_commonjs_require c = true → get_first_arg_str c = some s →
        visit_call_expr v c = bind_dependency v s ResolveType.Require) := by
  constructor
  · rw [is_commonjs_require_iff, get_first_arg_str_iff]
  · intro h1 h2
    obtain ⟨callee, args⟩ := c
    simp only [visit_call_expr, h1, if_true, h2]

/-- Witness for C4: `require("a")` is recorded as a `Require` dependency. -/
theorem claim_C4_witness :
    visit_call_expr DepCollectVisitor.new (.mk (.expr (.ident "require")) [.strLit "a"])
      = bind_dependency DepCollectVisitor.new "a" ResolveType.Require :=
  (claim_C4_require_form DepCollectVisitor.new
    (.mk (.expr (.ident "require")) [.strLit "a"]) "a").2 rfl rfl

/-- Claim C5: a require or dynamic-import match is terminal — the visit of
the matching call is exactly the one `bind_dependency` call, with no descent
into the arguments — while every non-matching call expression continues with
normal child traversal (callee, then arguments); a matching call sitting
inside a function body is still discovered through that traversal. -/
theorem claim_C5_terminal_match (v : DepCollectVisitor) (callee : Callee)
    (args : List Expr) :
    (∀ s, is_commonjs_require (.mk callee args) = true →
        get_first_arg_str (.mk callee args) = some s →
        visit_call_expr v (.mk callee args) = bind_dependency v s ResolveType.Require)
    ∧ (∀ s, is_dynamic_import (.mk callee args) = true →
        get_first_arg_str (.mk callee args) = some s →
        visit_call_expr v (.mk callee args)
          = bind_dependency v s ResolveType.DynamicImport)
    ∧ (get_first_arg_str (.mk callee args) = none →
        visit_call_expr v (.mk callee args) = visitExprList (visitCallee v callee) args)
    ∧ (is_commonjs_require (.mk callee args) = false →
        is_dynamic_import (.mk callee args) = false →
        visit_call_expr v (.mk callee args) = visitExprList (visitCallee v callee) args)
    ∧ (∀ s rest, visitExpr v (.fn [.exprStmt (.call (.mk (.expr (.ident "require"))
        (.strLit s :: rest)))]) = bind_dependency v s ResolveType.Require) := by
  refine ⟨?_, ?_, ?_, ?_, ?_⟩
  · intro s h1 h2
    simp only [visit_call_expr, h1, if_true, h2]
  · intro s h1 h2
    have h0 : is_commonjs_require (.mk callee args) = false := by
      cases callee with
      | importCallee => rfl
      | expr e => cases h1
    simp only [visit_call_expr, h0, Bool.false_eq_true, if_false, h1, if_true, h2]
  · intro h
    cases h1 : is_commonjs_require (.mk callee args) <;>
      cases h2 : is_dynamic_import (.mk callee args) <;>
        simp only [visit_call_expr, h1, h2, h, Bool.false_eq_true, if_false, if_true]
  · intro h1 h2
    simp only [visit_call_expr, h1, h2, Bool.false_eq_true, if_false]
  · intro s rest
    rfl

/-- Witness for C5: in `import("x", require("y"))` the dynamic-import match is
terminal, so the visit is one bind of `"x"` — the nested `require("y")` in the
arguments is never recorded. -/
theorem claim_C5_witness :
    visit_call_expr DepCollectVisitor.new
      (.mk .importCallee
        [.strLit "x", .call (.mk (.expr (.ident "require")) [.strLit "y"])])
      = bind_dependency DepCollectVisitor.new "x" ResolveType.DynamicImport :=
  (claim_C5_terminal_match DepCollectVisitor.new .importCallee
    [.strLit "x", .call (.mk (.expr (.ident "require")) [.strLit "y"])]).2.1
    "x" rfl rfl

theorem visitModuleItemList_type_only (v : DepCollectVisitor)
    (items : List ModuleItem)
    (h : ∀ item ∈ items, ∃ src, item = ModuleItem.moduleDecl (.importDecl true src)) :
    visitModuleItemList v items = v := by
  induction items generalizing v with
  | nil => rfl
  | cons i rest ih =>
    obtain ⟨src, hi⟩ := h i (List.mem_cons_self i rest)
    subst hi
    have hv : visitModuleItem v (.moduleDecl (.importDecl true src)) = v := rfl
    rw [visitModuleItemList, hv]
    exact ih v (fun x hx => h x (List.mem_cons_of_mem _ hx))

/-- Claim C6: a type-only import declaration produces no dependency and does
not change the collector, and a module whose items are all type-only imports
analyzes to the empty dependency list. -/
theorem claim_C6_type_only :
    (∀ (v : DepCollectVisitor) (src : String),
        visit_module_decl v (.importDecl true src) = v)
    ∧ (∀ m : Module,
        (∀ item ∈ m.body, ∃ src, item = ModuleItem.moduleDecl (.importDecl true src)) →
        analyze_deps_js m = []) := by
  constructor
  · intro v src
    rfl
  · intro m h
    unfold analyze_deps_js
    rw [visitModuleItemList_type_only _ _ h]
    rfl

/-- Witness for C6: two type-only imports alone yield the empty list. -/
theorem claim_C6_witness :
    analyze_deps_js ⟨[.moduleDecl (.importDecl true "foo"),
      .moduleDecl (.importDecl true "bar")]⟩ = [] :=
  claim_C6_type_only.2
    ⟨[.moduleDecl (.importDecl true "foo"), .moduleDecl (.importDecl true "bar")]⟩
    (by
      intro item hi
      rcases List.mem_cons.mp hi with h | h
      · exact ⟨"foo", h⟩
      rcases List.mem_cons.mp h with h1 | h1
      · exact ⟨"bar", h1⟩
      · cases h1)

/-- Claim C7: the three stylesheet import forms — a raw URL token, a bare
string, and a quoted URL token — each yield exactly one `Css` dependency with
source `a.css`; a URL token's value, quoted or raw, normalizes to its text
value. -/
theorem claim_C7_css_import_forms :
    analyze_deps_css ⟨[.importRule (.url ⟨some (.raw "a.css")⟩)]⟩
        = some [{ source := "a.css", order := 1, resolve_type := .Css }]
    ∧ analyze_deps_css ⟨[.importRule (.str "a.css")]⟩
        = some [{ source := "a.css", order := 1, resolve_type := .Css }]
    ∧ analyze_deps_css ⟨[.importRule (.url ⟨some (.str "a.css")⟩)]⟩
        = some [{ source := "a.css", order := 1, resolve_type := .Css }]
    ∧ (∀ s, urlValueText (.str s) = s ∧ urlValueText (.raw s) = s) :=
  ⟨by decide, by decide, by decide, fun s => ⟨rfl, rfl⟩⟩

/-- Claim C8: a pool execution of N independent analysis tasks — each owning
its module and writing only its own slot — produces, for every completion
order covering the tasks, slot for slot the sequential results, for any N
and any interleaving. -/
theorem claim_C8_concurrent_determinism (modules : List ModuleAst)
    (completionOrder : List Nat)
    (hcover : ∀ i, i < modules.length → i ∈ completionOrder) :
    runPool modules completionOrder = runSequential modules := by
  apply List.ext_getElem?
  intro j
  by_cases hj : j < modules.length
  · have hm : modules[j]? = some (modules[j]) := List.getElem?_eq_getElem hj
    rw [runPool, foldl_poolStep_getElem_mem modules completionOrder _ j (modules[j])
      (List.length_replicate _ _) (hcover j hj) hm]
    rw [runSequential, List.getElem?_map, hm]
    rfl
  · have h1 : (runPool modules completionOrder).length ≤ j := by
      rw [runPool, foldl_poolStep_length, List.length_replicate]
      omega
    have h2 : (runSequential modules).length ≤ j := by
      rw [runSequential, List.length_map]
      omega
    rw [List.getElem?_eq_none h1, List.getElem?_eq_none h2]

/-- Witness for C8: two modules completed in the order 1, 0 give the
sequential results. -/
theorem claim_C8_witness :
    runPool [ModuleAst.script ⟨[.moduleDecl (.importDecl false "a")]⟩,
        ModuleAst.css ⟨[.importRule (.str "b.css")]⟩] [1, 0]
      = runSequential [ModuleAst.script ⟨[.moduleDecl (.importDecl false "a")]⟩,
        ModuleAst.css ⟨[.importRule (.str "b.css")]⟩] :=
  claim_C8_concurrent_determinism _ _ (by decide)

/-- Claim C9: a call whose callee is the bare identifier `require` and whose
first argument is the string literal `s` is recorded as a `Require`
dependency with source `s`, whatever further arguments follow — the extra
arguments are never inspected and do not prevent the record. -/
theorem claim_C9_extra_args (v : DepCollectVisitor) (s : String)
    (rest : List Expr) :
    get_first_arg_str (.mk (.expr (.ident "require")) (.strLit s :: rest)) = some s
    ∧ visit_call_expr v (.mk (.expr (.ident "require")) (.strLit s :: rest))
        = bind_dependency v s ResolveType.Require :=
  ⟨rfl, rfl⟩

/-- Claim C10: an import rule whose URL-token target carries no value is
silently skipped — the collector is unchanged and the analysis neither fails
nor records anything, and continues with the following rules — in contrast
to a valueless `url()` outside an import rule, whose visit fails. -/
theorem claim_C10_valueless_import_href :
    (∀ v : DepCollectVisitor, visit_import_href v (.url ⟨none⟩) = v)
    ∧ (∀ v : DepCollectVisitor, visit_url v ⟨none⟩ = none)
    ∧ analyze_deps_css ⟨[.importRule (.url ⟨none⟩), .importRule (.str "a.css")]⟩
        = some [{ source := "a.css", order := 1, resolve_type := .Css }] :=
  ⟨fun _ => rfl, fun _ => rfl, by decide⟩

end Mako
